/-
Verification of the span-tree ingestion/query engine
(src/viewer/src/span_tree.rs) against its natural-language specification.

The engine is shallowly embedded: `HashMap` becomes an association list
(lookup returns the most recent binding), `HashSet` becomes a duplicate-free
insertion list, `Vec` becomes `List`, timestamps and ids become `Nat`.
The `rr_data` message/entity types are not under src/, so they are modelled
from the spec (section 3 "DATA MODEL" and section 6 "Message shape").
-/
import Mathlib

/-- Modelled from the spec: `rr_data::Callsite` — static metadata for one
instrumentation point: unique id, display name, severity level, source
location (spec section 3). Ids, levels and locations are abstracted to `Nat`
and `String`. -/
structure Callsite where
  id : Nat
  name : String
  level : Nat
  location : String
deriving DecidableEq, Repr

/-- Modelled from the spec: `rr_data::Span` — a unique SpanId, the CallsiteId
it was created from, and an optional parent SpanId (spec section 3). -/
structure Span where
  id : Nat
  parent_span_id : Option Nat
  callsite_id : Nat
deriving DecidableEq, Repr

/-- Modelled from the spec: `rr_data::DataEvent` — the CallsiteId it
originated from, an optional parent SpanId, and string field pairs
(spec section 3). -/
structure DataEvent where
  callsite_id : Nat
  parent_span_id : Option Nat
  fields : List (String × String)
deriving DecidableEq, Repr

/-- `TimeInterval` from span_tree.rs: optional entered/exited timestamps. -/
structure TimeInterval where
  entered : Option Nat
  exited : Option Nat
deriving DecidableEq, Repr

/-- `SpanNode` from span_tree.rs: the mutable runtime record for one span. -/
structure SpanNode where
  span : Span
  follows : Option Nat
  lifetime : TimeInterval
  intervals : List TimeInterval
  children : List Nat
  events : List (Nat × DataEvent)
deriving DecidableEq, Repr

/-- Modelled from the spec: the seven message kinds of `rr_data::MessageEnum`
(spec section 6 "Message shape"). -/
inductive MessageEnum where
  | NewCallsite (callsite : Callsite)
  | NewSpan (span : Span)
  | EnterSpan (span_id : Nat)
  | ExitSpan (span_id : Nat)
  | DestroySpan (span_id : Nat)
  | SpanFollowsFrom (span : Nat) (follows : Nat)
  | DataEvent (event : DataEvent)
deriving DecidableEq, Repr

/-- Modelled from the spec: `rr_data::Message` — a logical timestamp plus the
kind-specific payload (spec section 6). -/
structure Message where
  log_time : Nat
  msg_enum : MessageEnum
deriving DecidableEq, Repr

/-- Association-list lookup: the most recent binding for a key
(embeds `HashMap::get`). -/
def lookupA {β : Type} (l : List (Nat × β)) (k : Nat) : Option β :=
  match l with
  | [] => none
  | (k', v) :: rest => if k = k' then some v else lookupA rest k

/-- Embeds `HashMap::insert`: the new binding shadows any previous one. -/
def insertA {β : Type} (k : Nat) (v : β) (l : List (Nat × β)) : List (Nat × β) :=
  (k, v) :: l

/-- Embeds in-place mutation through `HashMap::get_mut`: apply `f` to every
binding of key `k` (lookup only ever sees the most recent one). -/
def updateA {β : Type} (k : Nat) (f : β → β) : List (Nat × β) → List (Nat × β)
  | [] => []
  | (k', v) :: rest =>
    if k' = k then (k', f v) :: updateA k f rest else (k', v) :: updateA k f rest

/-- Embeds `HashSet::insert`: add the element if it is not already present. -/
def insertS (k : Nat) (l : List Nat) : List Nat :=
  if k ∈ l then l else k :: l

/-- `SpanTree` from span_tree.rs: the aggregate root. -/
structure SpanTree where
  callsites : List (Nat × Callsite)
  nodes : List (Nat × SpanNode)
  roots : List Nat
  orphan_events : List (Nat × DataEvent)
deriving DecidableEq, Repr

/-- `SpanTree::default()`: the empty tree. -/
def SpanTree.empty : SpanTree :=
  { callsites := [], nodes := [], roots := [], orphan_events := [] }

@[simp] theorem lookupA_nil {β : Type} (k : Nat) : lookupA ([] : List (Nat × β)) k = none := rfl

@[simp] theorem lookupA_cons {β : Type} (k k' : Nat) (v : β) (l : List (Nat × β)) :
    lookupA ((k', v) :: l) k = if k = k' then some v else lookupA l k := rfl

@[simp] theorem lookupA_insertA {β : Type} (k k' : Nat) (v : β) (l : List (Nat × β)) :
    lookupA (insertA k' v l) k = if k = k' then some v else lookupA l k := rfl

@[simp] theorem lookupA_updateA {β : Type} (k k' : Nat) (f : β → β) (l : List (Nat × β)) :
    lookupA (updateA k' f l) k =
      if k = k' then (lookupA l k).map f else lookupA l k := by
  induction l with
  | nil => simp [updateA]
  | cons hd tl ih =>
    obtain ⟨k₀, v₀⟩ := hd
    by_cases h₀ : k₀ = k'
    · subst h₀
      by_cases hk : k = k₀ <;> simp [updateA, hk, ih]
    · by_cases hk : k = k₀
      · subst hk
        simp [updateA, h₀]
      · simp [updateA, h₀, hk, ih]

@[simp] theorem mem_insertS (a k : Nat) (l : List Nat) :
    a ∈ insertS k l ↔ a = k ∨ a ∈ l := by
  unfold insertS
  by_cases h : k ∈ l
  · simp only [if_pos h]
    constructor
    · exact fun ha => Or.inr ha
    · rintro (rfl | ha)
      · exact h
      · exact ha
  · simp [if_neg h]

/-! ### The ingestion state machine (`SpanTree::on_mesage`)

Each helper below embeds one arm of the `match` in `SpanTree::on_mesage`.
`tracing::warn!` calls are embedded as the returned list of warning
diagnostic strings. -/

/-- `NewCallsite` arm: insert/overwrite the callsite, silently. -/
def applyNewCallsite (t : SpanTree) (c : Callsite) : SpanTree × List String :=
  ({ t with callsites := insertA c.id c t.callsites }, [])

/-- The fresh `SpanNode` built by the `NewSpan` arm: lifetime starts at the
message time; intervals, children and events empty. -/
def freshNode (log_time : Nat) (span : Span) : SpanNode :=
  { span := span
    follows := none
    lifetime := { entered := some log_time, exited := none }
    intervals := []
    children := []
    events := [] }

/-- `NewSpan` arm: replace any node for `span.id` with a fresh node (warning
if one existed); then link into the parent's children if the parent is known,
into `roots` if no parent is declared, and nowhere (with a warning) if the
declared parent is unknown. -/
def applyNewSpan (t : SpanTree) (log_time : Nat) (span : Span) : SpanTree × List String :=
  let prev := lookupA t.nodes span.id
  let nodes1 := insertA span.id (freshNode log_time span) t.nodes
  let diags := if prev.isSome then ["Reused span id"] else []
  match span.parent_span_id with
  | some parent_span_id =>
    match lookupA nodes1 parent_span_id with
    | some _ =>
      let nodes2 := updateA parent_span_id
        (fun n => { n with children := insertS span.id n.children }) nodes1
      ({ t with nodes := nodes2 }, diags)
    | none => ({ t with nodes := nodes1 }, diags ++ ["Unknown parent span"])
  | none => ({ t with nodes := nodes1, roots := insertS span.id t.roots }, diags)

/-- `EnterSpan` arm: push a fresh open interval onto a known span's intervals;
warning no-op on an unknown span. -/
def applyEnterSpan (t : SpanTree) (log_time : Nat) (span_id : Nat) : SpanTree × List String :=
  match lookupA t.nodes span_id with
  | some _ =>
    let nodes1 := updateA span_id
      (fun n => { n with
        intervals := n.intervals ++ [{ entered := some log_time, exited := none }] })
      t.nodes
    ({ t with nodes := nodes1 }, [])
  | none => (t, ["Opened unknown span"])

/-- The interval-list transformation of the `ExitSpan` arm: close the last
interval if it is open, otherwise append a closed-only interval (with a
warning in the latter case and when there is no interval at all). -/
def exitIntervals (log_time : Nat) (intervals : List TimeInterval) :
    List TimeInterval × List String :=
  match intervals.getLast? with
  | some interval =>
    if interval.exited = none then
      (intervals.dropLast ++ [{ interval with exited := some log_time }], [])
    else
      (intervals ++ [{ entered := none, exited := some log_time }],
        ["Exited span that was never opened"])
  | none =>
    (intervals ++ [{ entered := none, exited := some log_time }],
      ["Exited span that was never opened"])

/-- `ExitSpan` arm: apply `exitIntervals` to a known span's intervals;
warning no-op on an unknown span. -/
def applyExitSpan (t : SpanTree) (log_time : Nat) (span_id : Nat) : SpanTree × List String :=
  match lookupA t.nodes span_id with
  | some node =>
    let nodes1 := updateA span_id
      (fun n => { n with intervals := (exitIntervals log_time n.intervals).1 })
      t.nodes
    ({ t with nodes := nodes1 }, (exitIntervals log_time node.intervals).2)
  | none => (t, ["Exited unknown span"])

/-- `DestroySpan` arm: set `lifetime.exited` (warning if already set);
warning no-op on an unknown span. -/
def applyDestroySpan (t : SpanTree) (log_time : Nat) (span_id : Nat) : SpanTree × List String :=
  match lookupA t.nodes span_id with
  | some node =>
    let nodes1 := updateA span_id
      (fun n => { n with lifetime := { n.lifetime with exited := some log_time } })
      t.nodes
    ({ t with nodes := nodes1 },
      if node.lifetime.exited.isSome then ["Destroying a span twice"] else [])
  | none => (t, ["Destroying unknown span"])

/-- `SpanFollowsFrom` arm: set `follows` (warning if already set);
warning no-op on an unknown span. -/
def applyFollowsFrom (t : SpanTree) (span follows : Nat) : SpanTree × List String :=
  match lookupA t.nodes span with
  | some node =>
    let nodes1 := updateA span (fun n => { n with follows := some follows }) t.nodes
    ({ t with nodes := nodes1 },
      if node.follows.isSome then ["Span follows multiple spans"] else [])
  | none => (t, ["Unknown span"])

/-- `DataEvent` arm: append to the declared parent's events if that span is
known, drop with a warning if it is unknown, and append to the orphan list
if no parent is declared. -/
def applyDataEvent (t : SpanTree) (log_time : Nat) (event : DataEvent) :
    SpanTree × List String :=
  match event.parent_span_id with
  | some span_id =>
    match lookupA t.nodes span_id with
    | some _ =>
      let nodes1 := updateA span_id
        (fun n => { n with events := n.events ++ [(log_time, event)] }) t.nodes
      ({ t with nodes := nodes1 }, [])
    | none => (t, ["Event with unknown span"])
  | none => ({ t with orphan_events := t.orphan_events ++ [(log_time, event)] }, [])

/-- `SpanTree::on_mesage`: the message-to-state transition function, returning
the updated tree and the warning diagnostics emitted while processing. -/
def on_mesage (t : SpanTree) (m : Message) : SpanTree × List String :=
  match m.msg_enum with
  | .NewCallsite callsite => applyNewCallsite t callsite
  | .NewSpan span => applyNewSpan t m.log_time span
  | .EnterSpan span_id => applyEnterSpan t m.log_time span_id
  | .ExitSpan span_id => applyExitSpan t m.log_time span_id
  | .DestroySpan span_id => applyDestroySpan t m.log_time span_id
  | .SpanFollowsFrom span follows => applyFollowsFrom t span follows
  | .DataEvent event => applyDataEvent t m.log_time event

/-- The state after ingesting one message (diagnostics discarded). -/
def step (t : SpanTree) (m : Message) : SpanTree :=
  (on_mesage t m).1

/-- Ingest a list of messages in order, starting from `t`. -/
def ingestList (t : SpanTree) (ms : List Message) : SpanTree :=
  ms.foldl step t

/-! ### The query layer -/

/-- Modelled from the spec: the textual rendering of a SpanId itself
(`SpanId`'s `Display` implementation lives in `rr_data`, outside src/;
the spec only requires "a textual rendering of the id"). -/
def spanIdText (span_id : Nat) : String :=
  toString span_id

/-- `SpanTree::span_name`: the owning callsite's display name when both the
span and its callsite are known, else the textual rendering of the id. -/
def span_name (t : SpanTree) (span_id : Nat) : String :=
  match lookupA t.nodes span_id with
  | some node =>
    match lookupA t.callsites node.span.callsite_id with
    | some callsite => callsite.name
    | none => spanIdText span_id
  | none => spanIdText span_id

/-- The parent reference followed by the `while` loop of
`SpanTree::span_ancestry`: the stored span's `parent_span_id`, if any. -/
def parentOf (t : SpanTree) (span_id : Nat) : Option Nat :=
  (lookupA t.nodes span_id).bind (fun node => node.span.parent_span_id)

/-- The `while` loop of `SpanTree::span_ancestry`, indexed by fuel: `none`
means the source loop has not terminated within `fuel` iterations (the Rust
loop has no cycle protection, so `none` at every fuel means divergence). -/
def ancestryLoop (t : SpanTree) : Nat → Nat → List String → Option (List String)
  | 0, current, ancestry =>
    match parentOf t current with
    | some _ => none
    | none => some ancestry
  | fuel + 1, current, ancestry =>
    match parentOf t current with
    | some parent => ancestryLoop t fuel parent (ancestry ++ [span_name t parent])
    | none => some ancestry

/-- Embeds `itertools::Itertools::join`: concatenate with a separator
between consecutive elements. -/
def joinSep (sep : String) : List String → String
  | [] => ""
  | [a] => a
  | a :: b :: rest => a ++ sep ++ joinSep sep (b :: rest)

/-- `SpanTree::span_ancestry` (fuel-indexed): collect names up the structural
parent chain and render root-first joined by " ➡ ". -/
def span_ancestry (t : SpanTree) (span_id : Nat) (fuel : Nat) : Option String :=
  (ancestryLoop t fuel span_id [span_name t span_id]).map
    (fun ancestry => joinSep " ➡ " ancestry.reverse)

/-! ### Reachability, traversal and invariant predicates -/

/-- The full-tree traversal of the presentation layer (`tree_ui` /
`tree_node_ui`): a span is visited iff it is a root or a member of a visited
span's children set. -/
inductive TreeReach (t : SpanTree) : Nat → Prop where
  | root (id : Nat) : id ∈ t.roots → TreeReach t id
  | child (p id : Nat) (n : SpanNode) : TreeReach t p →
      lookupA t.nodes p = some n → id ∈ n.children → TreeReach t id

/-- `S` occurs neither in `roots` nor in any stored node's children set. -/
def NotInTree (t : SpanTree) (S : Nat) : Prop :=
  S ∉ t.roots ∧ ∀ e ∈ t.nodes, S ∉ e.2.children

/-- No message in `ms` is a `NewSpan` carrying span id `S`. -/
def avoidsCreating (ms : List Message) (S : Nat) : Bool :=
  ms.all (fun m =>
    match m.msg_enum with
    | .NewSpan s => s.id != S
    | _ => true)

/-- States reachable from the empty tree by ingestion sequences in which
every `NewSpan` message carries a span id that is not yet present. -/
inductive ReachFresh : SpanTree → Prop where
  | empty : ReachFresh SpanTree.empty
  | step (t : SpanTree) (m : Message) : ReachFresh t →
      (∀ s, m.msg_enum = .NewSpan s → lookupA t.nodes s.id = none) →
      ReachFresh (step t m)

/-- The roots/children bookkeeping invariant: roots hold parentless stored
spans, children sets hold spans whose stored parent is exactly that parent,
and every stored parentless span is a root. -/
def PartitionInv (t : SpanTree) : Prop :=
  (∀ id ∈ t.roots, ∃ n, lookupA t.nodes id = some n ∧ n.span.parent_span_id = none)
  ∧ (∀ p n, lookupA t.nodes p = some n → ∀ c ∈ n.children,
      ∃ m, lookupA t.nodes c = some m ∧ m.span.parent_span_id = some p)
  ∧ (∀ id n, lookupA t.nodes id = some n → n.span.parent_span_id = none → id ∈ t.roots)

/-- The warning texts of every `tracing::warn!` call in `SpanTree::on_mesage`. -/
def warningDiagnostics : List String :=
  [ "Reused span id", "Unknown parent span", "Opened unknown span",
    "Exited span that was never opened", "Exited unknown span",
    "Destroying a span twice", "Destroying unknown span",
    "Span follows multiple spans", "Unknown span", "Event with unknown span" ]

/-! ### Concrete states used by counterexamples and witnesses -/

/-- Callsites "A","B","C" and spans 10 ← 11 ← 12 (spec section 8, item 5). -/
def abcTree : SpanTree :=
  ingestList SpanTree.empty
    [ ⟨0, .NewCallsite ⟨1, "A", 0, "a.rs"⟩⟩,
      ⟨1, .NewCallsite ⟨2, "B", 0, "b.rs"⟩⟩,
      ⟨2, .NewCallsite ⟨3, "C", 0, "c.rs"⟩⟩,
      ⟨3, .NewSpan ⟨10, none, 1⟩⟩,
      ⟨4, .NewSpan ⟨11, some 10, 2⟩⟩,
      ⟨5, .NewSpan ⟨12, some 11, 3⟩⟩ ]

/-- One span created at time 0, entered at time 1 and again at time 2. -/
def twoEnterTree : SpanTree :=
  ingestList SpanTree.empty
    [⟨0, .NewSpan ⟨1, none, 0⟩⟩, ⟨1, .EnterSpan 1⟩, ⟨2, .EnterSpan 1⟩]

/-- One span created at time 0 and entered at time 1. -/
def enteredOnceTree : SpanTree :=
  ingestList SpanTree.empty [⟨0, .NewSpan ⟨1, none, 0⟩⟩, ⟨1, .EnterSpan 1⟩]

/-- Span id 1 created as a root, then re-created declaring itself as parent. -/
def selfParentReuseTree : SpanTree :=
  ingestList SpanTree.empty
    [⟨0, .NewSpan ⟨1, none, 0⟩⟩, ⟨1, .NewSpan ⟨1, some 1, 0⟩⟩]

/-- A single span whose stored parent is itself (created directly by
`NewSpan{id = 1, parent = Some 1}`: the parent lookup happens after the
insert, so the span links to itself). -/
def selfCycleTree : SpanTree :=
  ingestList SpanTree.empty [⟨0, .NewSpan ⟨1, some 1, 0⟩⟩]

/-- Roots 1 and 2, then id 1 re-created as a child of 2. -/
def reuseReparentTree : SpanTree :=
  ingestList SpanTree.empty
    [ ⟨0, .NewSpan ⟨1, none, 0⟩⟩, ⟨1, .NewSpan ⟨2, none, 0⟩⟩,
      ⟨2, .NewSpan ⟨1, some 2, 0⟩⟩ ]

/-- Root 1 created, then id 1 re-created with the unknown parent 99. -/
def reuseUnknownParentTree : SpanTree :=
  ingestList SpanTree.empty
    [⟨0, .NewSpan ⟨1, none, 0⟩⟩, ⟨1, .NewSpan ⟨1, some 99, 0⟩⟩]

/-! ### C9 — name resolution -/

/-- C9: `span_name` returns the owning callsite's display name exactly when
both the span and its callsite are present, and otherwise the textual
rendering of the span id itself; it is a total function. -/
theorem span_name_total_resolution (t : SpanTree) (span_id : Nat) :
    (∀ node callsite, lookupA t.nodes span_id = some node →
        lookupA t.callsites node.span.callsite_id = some callsite →
        span_name t span_id = callsite.name)
    ∧ (∀ node, lookupA t.nodes span_id = some node →
        lookupA t.callsites node.span.callsite_id = none →
        span_name t span_id = spanIdText span_id)
    ∧ (lookupA t.nodes span_id = none →
        span_name t span_id = spanIdText span_id) := by
  refine ⟨?_, ?_, ?_⟩
  · intro node callsite hn hc
    simp [span_name, hn, hc]
  · intro node hn hc
    simp [span_name, hn, hc]
  · intro hn
    simp [span_name, hn]

/-- C9 witness: in `abcTree`, span 10 resolves to "A"; the unknown id 99
renders as itself. -/
theorem span_name_total_resolution_witness :
    span_name abcTree 10 = "A" ∧ span_name abcTree 99 = spanIdText 99 :=
  ⟨(span_name_total_resolution abcTree 10).1
      { span := { id := 10, parent_span_id := none, callsite_id := 1 },
        follows := none,
        lifetime := { entered := some 3, exited := none },
        intervals := [], children := [11], events := [] }
      ⟨1, "A", 0, "a.rs"⟩ (by decide) (by decide),
    (span_name_total_resolution abcTree 99).2.2 (by decide)⟩

/-! ### C6 — orphan vs dropped data events -/

/-- C6: a `DataEvent` with no declared parent is appended to the orphan list;
one with a known parent is appended to exactly that node's events; one with
an unknown parent leaves the state completely unchanged (dropped) and emits
a diagnostic. -/
theorem dataEvent_orphan_or_drop (t : SpanTree) (τ : Nat) (event : DataEvent) :
    (event.parent_span_id = none →
      (on_mesage t ⟨τ, .DataEvent event⟩).1 =
        { t with orphan_events := t.orphan_events ++ [(τ, event)] }
      ∧ (on_mesage t ⟨τ, .DataEvent event⟩).2 = [])
    ∧ (∀ S node, event.parent_span_id = some S → lookupA t.nodes S = some node →
        lookupA (on_mesage t ⟨τ, .DataEvent event⟩).1.nodes S =
          some { node with events := node.events ++ [(τ, event)] }
        ∧ (∀ q, q ≠ S → lookupA (on_mesage t ⟨τ, .DataEvent event⟩).1.nodes q
            = lookupA t.nodes q)
        ∧ (on_mesage t ⟨τ, .DataEvent event⟩).1.orphan_events = t.orphan_events
        ∧ (on_mesage t ⟨τ, .DataEvent event⟩).2 = [])
    ∧ (∀ S, event.parent_span_id = some S → lookupA t.nodes S = none →
        (on_mesage t ⟨τ, .DataEvent event⟩).1 = t
        ∧ (on_mesage t ⟨τ, .DataEvent event⟩).2 = ["Event with unknown span"]) := by
  refine ⟨?_, ?_, ?_⟩
  · intro h
    constructor <;> simp [on_mesage, applyDataEvent, h]
  · intro S node h hn
    refine ⟨?_, ?_, ?_, ?_⟩
    · simp [on_mesage, applyDataEvent, h, hn]
    · intro q hq
      simp [on_mesage, applyDataEvent, h, hn, hq]
    · simp [on_mesage, applyDataEvent, h, hn]
    · simp [on_mesage, applyDataEvent, h, hn]
  · intro S h hn
    constructor <;> simp [on_mesage, applyDataEvent, h, hn]

/-- C6 witness: an orphan event at the empty tree is appended to the orphan
list, and an event naming the unknown span 5 leaves the empty tree unchanged. -/
theorem dataEvent_orphan_or_drop_witness :
    ((on_mesage SpanTree.empty ⟨7, .DataEvent ⟨0, none, [("k", "v")]⟩⟩).1 =
      { SpanTree.empty with orphan_events := [(7, ⟨0, none, [("k", "v")]⟩)] }
      ∧ (on_mesage SpanTree.empty ⟨7, .DataEvent ⟨0, none, [("k", "v")]⟩⟩).2 = [])
    ∧ ((on_mesage SpanTree.empty ⟨8, .DataEvent ⟨0, some 5, []⟩⟩).1 = SpanTree.empty
      ∧ (on_mesage SpanTree.empty ⟨8, .DataEvent ⟨0, some 5, []⟩⟩).2 =
          ["Event with unknown span"]) :=
  ⟨(dataEvent_orphan_or_drop SpanTree.empty 7 ⟨0, none, [("k", "v")]⟩).1 rfl,
    (dataEvent_orphan_or_drop SpanTree.empty 8 ⟨0, some 5, []⟩).2.2 5 rfl rfl⟩

/-! ### C5 — ExitSpan closes the most recent interval -/

/-- C5: for a known span, `ExitSpan` at time `τ` closes the last interval if
its end is absent; otherwise (last interval closed, or no interval at all) it
emits a diagnostic and pushes the closed-only interval `{entered = none,
exited = some τ}`. -/
theorem exitSpan_closes_last_or_pushes (t : SpanTree) (τ span_id : Nat)
    (node : SpanNode) (hnode : lookupA t.nodes span_id = some node) :
    (∀ pre interval, node.intervals = pre ++ [interval] → interval.exited = none →
      lookupA (on_mesage t ⟨τ, .ExitSpan span_id⟩).1.nodes span_id =
        some { node with intervals := pre ++ [{ interval with exited := some τ }] }
      ∧ (on_mesage t ⟨τ, .ExitSpan span_id⟩).2 = [])
    ∧ (∀ pre interval t₀, node.intervals = pre ++ [interval] →
        interval.exited = some t₀ →
      lookupA (on_mesage t ⟨τ, .ExitSpan span_id⟩).1.nodes span_id =
        some { node with
          intervals := node.intervals ++ [{ entered := none, exited := some τ }] }
      ∧ (on_mesage t ⟨τ, .ExitSpan span_id⟩).2 = ["Exited span that was never opened"])
    ∧ (node.intervals = [] →
      lookupA (on_mesage t ⟨τ, .ExitSpan span_id⟩).1.nodes span_id =
        some { node with intervals := [{ entered := none, exited := some τ }] }
      ∧ (on_mesage t ⟨τ, .ExitSpan span_id⟩).2 = ["Exited span that was never opened"]) := by
  refine ⟨?_, ?_, ?_⟩
  · intro pre interval hpre hopen
    constructor <;>
      simp [on_mesage, applyExitSpan, hnode, exitIntervals, hpre, hopen,
        List.getLast?_concat, List.dropLast_concat]
  · intro pre interval t₀ hpre hclosed
    constructor <;>
      simp [on_mesage, applyExitSpan, hnode, exitIntervals, hpre, hclosed,
        List.getLast?_concat, List.dropLast_concat]
  · intro hnil
    constructor <;>
      simp [on_mesage, applyExitSpan, hnode, exitIntervals, hnil]

/-- C5 witness: `EnterSpan` at 1, `EnterSpan` at 2, `ExitSpan` at 3 yields
exactly the intervals [1, ?] and [2, 3]: the exit closes the second. -/
theorem exitSpan_closes_last_or_pushes_witness :
    lookupA (on_mesage twoEnterTree ⟨3, .ExitSpan 1⟩).1.nodes 1 =
      some { span := { id := 1, parent_span_id := none, callsite_id := 0 },
             follows := none,
             lifetime := { entered := some 0, exited := none },
             intervals := [{ entered := some 1, exited := none },
                           { entered := some 2, exited := some 3 }],
             children := [], events := [] }
    ∧ (on_mesage twoEnterTree ⟨3, .ExitSpan 1⟩).2 = [] :=
  (exitSpan_closes_last_or_pushes twoEnterTree 3 1
      { span := { id := 1, parent_span_id := none, callsite_id := 0 },
        follows := none,
        lifetime := { entered := some 0, exited := none },
        intervals := [{ entered := some 1, exited := none },
                      { entered := some 2, exited := none }],
        children := [], events := [] }
      (by decide)).1
    [{ entered := some 1, exited := none }] { entered := some 2, exited := none }
    (by decide) rfl

/-! ### C1 — open intervals (corrected) -/

/-- C1 counterexample: after creating span 1 and entering it twice without
exiting, the node's interval list holds TWO open intervals (end absent), so
"at most one open interval at any point" is false for the code. -/
theorem two_open_intervals_cex :
    (lookupA twoEnterTree.nodes 1).map
      (fun n => n.intervals.countP (fun iv => iv.exited.isNone)) = some 2 := by
  decide

/-- C1 (amended): opening never requires the previous interval to be closed
(`EnterSpan` unconditionally appends a fresh open interval, so several open
intervals may coexist), and closing always targets the most recently opened
(last) interval, leaving all earlier intervals untouched. -/
theorem enter_appends_exit_targets_last (t : SpanTree) (τ span_id : Nat)
    (node : SpanNode) (hnode : lookupA t.nodes span_id = some node) :
    (lookupA (step t ⟨τ, .EnterSpan span_id⟩).nodes span_id =
      some { node with
        intervals := node.intervals ++ [{ entered := some τ, exited := none }] })
    ∧ (∀ pre interval, node.intervals = pre ++ [interval] → interval.exited = none →
        lookupA (step t ⟨τ, .ExitSpan span_id⟩).nodes span_id =
          some { node with intervals := pre ++ [{ interval with exited := some τ }] }) := by
  constructor
  · simp [step, on_mesage, applyEnterSpan, hnode]
  · intro pre interval hpre hopen
    simp [step, on_mesage, applyExitSpan, hnode, exitIntervals, hpre, hopen,
      List.getLast?_concat, List.dropLast_concat]

/-- C1 witness: entering span 1 a second time while the first interval is
still open appends a second open interval. -/
theorem enter_appends_exit_targets_last_witness :
    lookupA (step enteredOnceTree ⟨2, .EnterSpan 1⟩).nodes 1 =
      some { span := { id := 1, parent_span_id := none, callsite_id := 0 },
             follows := none,
             lifetime := { entered := some 0, exited := none },
             intervals := [{ entered := some 1, exited := none },
                           { entered := some 2, exited := none }],
             children := [], events := [] } :=
  (enter_appends_exit_targets_last enteredOnceTree 2 1
      { span := { id := 1, parent_span_id := none, callsite_id := 0 },
        follows := none,
        lifetime := { entered := some 0, exited := none },
        intervals := [{ entered := some 1, exited := none }],
        children := [], events := [] }
      (by decide)).1

/-! ### C2 — replace on reused id (corrected) -/

/-- C2 counterexample: if the re-creating message declares the span as its
own parent (`NewSpan{id = 1, parent = Some 1}` while id 1 is present), the
replacing node's children set is [1], not empty: the parent lookup happens
after the insert and finds the fresh node itself. -/
theorem newSpan_reuse_children_cex :
    (lookupA selfParentReuseTree.nodes 1).map (fun n => n.children) = some [1] := by
  decide

/-- C2 (amended): re-creating a present span id replaces the old node with a
fresh one — lifetime starting at the message time; intervals, children and
events empty; old state discarded — and emits the reused-id diagnostic,
provided the new span does not declare itself as its own parent. -/
theorem newSpan_replaces_on_reuse (t : SpanTree) (τ : Nat) (s : Span)
    (prev : SpanNode) (hprev : lookupA t.nodes s.id = some prev)
    (hself : s.parent_span_id ≠ some s.id) :
    lookupA (on_mesage t ⟨τ, .NewSpan s⟩).1.nodes s.id = some (freshNode τ s)
    ∧ "Reused span id" ∈ (on_mesage t ⟨τ, .NewSpan s⟩).2 := by
  cases hp : s.parent_span_id with
  | none =>
    constructor <;> simp [on_mesage, applyNewSpan, hp, hprev]
  | some P =>
    have hPS : ¬ s.id = P := fun h => hself (by rw [hp, h])
    cases hl : lookupA t.nodes P with
    | none =>
      constructor <;>
        simp [on_mesage, applyNewSpan, hp, hprev, hl, insertA, Ne.symm hPS]
    | some pnode =>
      constructor <;>
        simp [on_mesage, applyNewSpan, hp, hprev, hl, insertA, Ne.symm hPS, hPS]

/-- C2 witness: create span 1, enter it, create span 1 again — the node is
replaced and its interval list is empty. -/
theorem newSpan_replaces_on_reuse_witness :
    lookupA (on_mesage enteredOnceTree ⟨2, .NewSpan ⟨1, none, 0⟩⟩).1.nodes 1 =
      some (freshNode 2 ⟨1, none, 0⟩)
    ∧ "Reused span id" ∈ (on_mesage enteredOnceTree ⟨2, .NewSpan ⟨1, none, 0⟩⟩).2 :=
  newSpan_replaces_on_reuse enteredOnceTree 2 ⟨1, none, 0⟩
    { span := { id := 1, parent_span_id := none, callsite_id := 0 },
      follows := none,
      lifetime := { entered := some 0, exited := none },
      intervals := [{ entered := some 1, exited := none }],
      children := [], events := [] }
    (by decide) (by decide)

/-! ### C10 — ingestion is total, anomalies degrade to warnings -/

/-- The exact condition under which `SpanTree::on_mesage` hits a
`tracing::warn!` call: a reused id or unknown parent on `NewSpan` (the parent
lookup runs after the insert), an unknown id on enter/exit/destroy/follows, a
closed-or-missing last interval on `ExitSpan`, an already-set lifetime end or
follows link, or a `DataEvent` naming an unknown parent. -/
def anomalous (t : SpanTree) (m : Message) : Bool :=
  match m.msg_enum with
  | .NewCallsite _ => false
  | .NewSpan s =>
    (lookupA t.nodes s.id).isSome ||
      (match s.parent_span_id with
       | some P => (lookupA (insertA s.id (freshNode m.log_time s) t.nodes) P).isNone
       | none => false)
  | .EnterSpan i => (lookupA t.nodes i).isNone
  | .ExitSpan i =>
    match lookupA t.nodes i with
    | none => true
    | some n =>
      match n.intervals.getLast? with
      | none => true
      | some iv => iv.exited.isSome
  | .DestroySpan i =>
    match lookupA t.nodes i with
    | none => true
    | some n => n.lifetime.exited.isSome
  | .SpanFollowsFrom sp _ =>
    match lookupA t.nodes sp with
    | none => true
    | some n => n.follows.isSome
  | .DataEvent ev =>
    match ev.parent_span_id with
    | none => false
    | some S => (lookupA t.nodes S).isNone

/-- C10: ingestion is total — every message of any of the seven kinds
produces a successor state; a diagnostic is emitted exactly when the message
is anomalous, every diagnostic ever emitted is one of the recorded warning
texts (nothing fatal exists), and ingestion of any subsequent message list
continues from the successor state. -/
theorem on_mesage_never_aborts (t : SpanTree) (m : Message) :
    (∀ d, d ∈ (on_mesage t m).2 → d ∈ warningDiagnostics)
    ∧ ((on_mesage t m).2 ≠ [] ↔ anomalous t m = true)
    ∧ (∀ rest, ingestList t (m :: rest) = ingestList (step t m) rest) := by
  refine ⟨?_, ?_, ?_⟩
  · obtain ⟨τ, e⟩ := m
    intro d hd
    cases e <;>
      simp only [on_mesage, applyNewCallsite, applyNewSpan, applyEnterSpan,
        applyExitSpan, applyDestroySpan, applyFollowsFrom, applyDataEvent,
        exitIntervals] at hd <;>
      (repeat' split at hd) <;>
      (simp_all [warningDiagnostics]; try tauto)
  · obtain ⟨τ, e⟩ := m
    cases e <;>
      simp only [on_mesage, anomalous, applyNewCallsite, applyNewSpan,
        applyEnterSpan, applyExitSpan, applyDestroySpan, applyFollowsFrom,
        applyDataEvent, exitIntervals] <;>
      (repeat' split) <;>
      simp_all [Option.isSome_iff_ne_none]
  · intro rest
    rfl

/-- C10 witness: exiting an unknown span at the empty tree yields the
warning diagnostic "Exited unknown span", which is among the recorded
warning texts. -/
theorem on_mesage_never_aborts_witness :
    "Exited unknown span" ∈ warningDiagnostics :=
  (on_mesage_never_aborts SpanTree.empty ⟨0, .ExitSpan 1⟩).1
    "Exited unknown span" (by decide)

/-! ### C3 — span_ancestry has no cycle protection (code bug) -/

/-- C3: the parent-chain walk of `span_ancestry` is NOT protected against
cycles: on `selfCycleTree` (span 1 stored with parent 1, produced by the
single message `NewSpan{id = 1, parent = Some 1}`) the loop runs out of any
amount of fuel — the source `while let` loop never terminates. -/
theorem span_ancestry_diverges_on_cycle :
    (∀ fuel ancestry, ancestryLoop selfCycleTree fuel 1 ancestry = none)
    ∧ (∀ fuel, span_ancestry selfCycleTree 1 fuel = none) := by
  have hp : parentOf selfCycleTree 1 = some 1 := by decide
  have hloop : ∀ fuel ancestry, ancestryLoop selfCycleTree fuel 1 ancestry = none := by
    intro fuel
    induction fuel with
    | zero => intro ancestry; simp [ancestryLoop, hp]
    | succ n ih => intro ancestry; simp [ancestryLoop, hp, ih]
  exact ⟨hloop, fun fuel => by simp [span_ancestry, hloop]⟩

/-! ### C8 — ancestry rendering -/

theorem joinSep_concat (sep x : String) :
    ∀ xs, xs ≠ [] → joinSep sep (xs ++ [x]) = joinSep sep xs ++ sep ++ x := by
  intro xs
  induction xs with
  | nil => intro h; exact absurd rfl h
  | cons a rest ih =>
    intro _
    cases rest with
    | nil => simp [joinSep]
    | cons b r =>
      have h2 := ih (List.cons_ne_nil b r)
      simp only [List.cons_append] at h2
      simp only [List.cons_append, List.append_eq, joinSep]
      rw [h2]
      simp [String.append_assoc]

theorem ancestryLoop_append (t : SpanTree) (a : List String) :
    ∀ fuel cur b, ancestryLoop t fuel cur (a ++ b) =
      (ancestryLoop t fuel cur b).map (fun r => a ++ r) := by
  intro fuel
  induction fuel with
  | zero =>
    intro cur b
    cases hp : parentOf t cur <;> simp [ancestryLoop, hp]
  | succ n ih =>
    intro cur b
    cases hp : parentOf t cur with
    | none => simp [ancestryLoop, hp]
    | some p =>
      simp only [ancestryLoop, hp]
      rw [List.append_assoc]
      exact ih p (b ++ [span_name t p])

/-- C8: `span_ancestry` walks the structural parent chain collecting resolved
names and renders root-first with the " ➡ " separator: on the "A","B","C"
chain it returns "A ➡ B ➡ C"; a parentless span renders as its own name; and
one parent step prepends the parent's rendering before the child's name. -/
theorem span_ancestry_renders_root_first :
    span_ancestry abcTree 12 2 = some "A ➡ B ➡ C"
    ∧ (∀ t span_id fuel, parentOf t span_id = none →
        span_ancestry t span_id fuel = some (span_name t span_id))
    ∧ (∀ t span_id parent fuel s, parentOf t span_id = some parent →
        span_ancestry t parent fuel = some s →
        span_ancestry t span_id (fuel + 1) =
          some (s ++ " ➡ " ++ span_name t span_id)) := by
  refine ⟨by decide, ?_, ?_⟩
  · intro t span_id fuel hp
    cases fuel <;> simp [span_ancestry, ancestryLoop, hp, joinSep]
  · intro t span_id parent fuel s hp hs
    simp only [span_ancestry, Option.map_eq_some'] at hs
    obtain ⟨l, hl, hrender⟩ := hs
    have hstep : ancestryLoop t (fuel + 1) span_id [span_name t span_id] =
        some ([span_name t span_id] ++ l) := by
      simp only [ancestryLoop, hp]
      have := ancestryLoop_append t [span_name t span_id] fuel parent
        [span_name t parent]
      simp only [List.singleton_append] at this ⊢
      rw [this, hl]
      rfl
    have hext : ∃ rest, l = [span_name t parent] ++ rest := by
      have := ancestryLoop_append t [span_name t parent] fuel parent []
      simp only [List.append_nil] at this
      rw [this] at hl
      rcases Option.map_eq_some'.mp hl with ⟨r0, _, hr0⟩
      exact ⟨r0, hr0.symm⟩
    obtain ⟨rest, hrest⟩ := hext
    have hrev : ([span_name t span_id] ++ l).reverse =
        l.reverse ++ [span_name t span_id] := by simp
    simp only [span_ancestry, hstep, Option.map_some']
    rw [hrev, joinSep_concat _ _ l.reverse
      (by simp [hrest]), hrender]

/-- C8 witness: one parent step from span 11's rendering "A ➡ B" yields
span 12's rendering. -/
theorem span_ancestry_renders_root_first_witness :
    span_ancestry abcTree 12 2 = some ("A ➡ B" ++ " ➡ " ++ span_name abcTree 12) :=
  span_ancestry_renders_root_first.2.2 abcTree 12 11 1 "A ➡ B" (by decide) (by decide)

/-! ### C7 — unresolvable parent excludes from the tree (corrected) -/

theorem lookupA_mem {β : Type} :
    ∀ (l : List (Nat × β)) (k : Nat) (v : β), lookupA l k = some v → (k, v) ∈ l := by
  intro l
  induction l with
  | nil => intro k v h; simp at h
  | cons hd tl ih =>
    intro k v h
    obtain ⟨k₀, v₀⟩ := hd
    by_cases hk : k = k₀
    · subst hk
      have hv : v₀ = v := by simpa using h
      subst hv
      exact List.mem_cons_self _ _
    · simp only [lookupA_cons, if_neg hk] at h
      exact List.mem_cons_of_mem _ (ih k v h)

/-- C7 counterexample: span 1 is created as a root, then re-created with the
unknown parent 99 (99 is never created): contrary to the claim, span 1 is
still in `roots` and the traversal from roots visits it. -/
theorem unresolvable_parent_roots_cex :
    1 ∈ reuseUnknownParentTree.roots ∧ TreeReach reuseUnknownParentTree 1 :=
  have h : 1 ∈ reuseUnknownParentTree.roots := by decide
  ⟨h, TreeReach.root 1 h⟩

theorem forall_updateA_children (S k : Nat) (f : SpanNode → SpanNode)
    (hf : ∀ n, S ∈ (f n).children → S ∈ n.children) :
    ∀ (nodes : List (Nat × SpanNode)), (∀ e ∈ nodes, S ∉ e.2.children) →
      ∀ e ∈ updateA k f nodes, S ∉ e.2.children := by
  intro nodes
  induction nodes with
  | nil => intro _ e he; simp [updateA] at he
  | cons hd tl ih =>
    intro h e he
    obtain ⟨k₀, v₀⟩ := hd
    simp only [updateA] at he
    split at he <;> rcases List.mem_cons.mp he with rfl | he'
    · intro hc
      exact h (k₀, v₀) (List.mem_cons_self _ _) (hf v₀ hc)
    · exact ih (fun e' he'' => h e' (List.mem_cons_of_mem _ he'')) e he'
    · exact h (k₀, v₀) (List.mem_cons_self _ _)
    · exact ih (fun e' he'' => h e' (List.mem_cons_of_mem _ he'')) e he'

theorem notInTree_step (t : SpanTree) (m : Message) (S : Nat)
    (h : NotInTree t S) (hm : ∀ s, m.msg_enum = .NewSpan s → s.id ≠ S) :
    NotInTree (step t m) S := by
  obtain ⟨τ, e⟩ := m
  obtain ⟨hroots, hnodes⟩ := h
  cases e with
  | NewCallsite callsite => exact ⟨hroots, hnodes⟩
  | NewSpan s =>
    have hS : s.id ≠ S := hm s rfl
    have hfresh : ∀ e ∈ insertA s.id (freshNode τ s) t.nodes, S ∉ e.2.children := by
      intro e he
      rcases List.mem_cons.mp he with rfl | he'
      · simp [freshNode]
      · exact hnodes e he'
    rcases hp : s.parent_span_id with _ | P
    · simp only [step, on_mesage, applyNewSpan, hp]
      refine ⟨?_, hfresh⟩
      intro hmem
      rcases (mem_insertS S s.id t.roots).mp hmem with rfl | hmem'
      · exact hS rfl
      · exact hroots hmem'
    · rcases hl : lookupA (insertA s.id (freshNode τ s) t.nodes) P with _ | pnode
      · simp only [step, on_mesage, applyNewSpan, hp, hl]
        exact ⟨hroots, hfresh⟩
      · simp only [step, on_mesage, applyNewSpan, hp, hl]
        refine ⟨hroots, forall_updateA_children S P _ ?_ _ hfresh⟩
        intro n hn
        rcases (mem_insertS S s.id n.children).mp hn with rfl | hmem
        · exact absurd rfl hS.symm
        · exact hmem
  | EnterSpan span_id =>
    rcases hl : lookupA t.nodes span_id with _ | n
    · simp only [step, on_mesage, applyEnterSpan, hl]
      exact ⟨hroots, hnodes⟩
    · simp only [step, on_mesage, applyEnterSpan, hl]
      refine ⟨hroots, forall_updateA_children S span_id _ ?_ _ hnodes⟩
      intro n' hn'
      exact hn'
  | ExitSpan span_id =>
    rcases hl : lookupA t.nodes span_id with _ | n
    · simp only [step, on_mesage, applyExitSpan, hl]
      exact ⟨hroots, hnodes⟩
    · simp only [step, on_mesage, applyExitSpan, hl]
      refine ⟨hroots, forall_updateA_children S span_id _ ?_ _ hnodes⟩
      intro n' hn'
      exact hn'
  | DestroySpan span_id =>
    rcases hl : lookupA t.nodes span_id with _ | n
    · simp only [step, on_mesage, applyDestroySpan, hl]
      exact ⟨hroots, hnodes⟩
    · simp only [step, on_mesage, applyDestroySpan, hl]
      refine ⟨hroots, forall_updateA_children S span_id _ ?_ _ hnodes⟩
      intro n' hn'
      exact hn'
  | SpanFollowsFrom sp fl =>
    rcases hl : lookupA t.nodes sp with _ | n
    · simp only [step, on_mesage, applyFollowsFrom, hl]
      exact ⟨hroots, hnodes⟩
    · simp only [step, on_mesage, applyFollowsFrom, hl]
      refine ⟨hroots, forall_updateA_children S sp _ ?_ _ hnodes⟩
      intro n' hn'
      exact hn'
  | DataEvent event =>
    rcases hp : event.parent_span_id with _ | P
    · simp only [step, on_mesage, applyDataEvent, hp]
      exact ⟨hroots, hnodes⟩
    · rcases hl : lookupA t.nodes P with _ | n
      · simp only [step, on_mesage, applyDataEvent, hp, hl]
        exact ⟨hroots, hnodes⟩
      · simp only [step, on_mesage, applyDataEvent, hp, hl]
        refine ⟨hroots, forall_updateA_children S P _ ?_ _ hnodes⟩
        intro n' hn'
        exact hn'

theorem notInTree_ingestList (S : Nat) :
    ∀ (ms : List Message) (t : SpanTree), NotInTree t S →
      avoidsCreating ms S = true → NotInTree (ingestList t ms) S := by
  intro ms
  induction ms with
  | nil => intro t h _; exact h
  | cons m rest ih =>
    intro t h hav
    simp only [avoidsCreating, List.all_cons, Bool.and_eq_true] at hav
    refine ih (step t m) (notInTree_step t m S h ?_) hav.2
    intro s hs
    have := hav.1
    rw [hs] at this
    simpa using this

theorem not_treeReach_of_notInTree (t : SpanTree) (S : Nat) (h : NotInTree t S) :
    ¬ TreeReach t S := by
  intro hr
  cases hr with
  | root _ hS => exact h.1 hS
  | child p _ n _ hp hc => exact h.2 (p, n) (lookupA_mem _ _ _ hp) hc

instance (t : SpanTree) (S : Nat) : Decidable (NotInTree t S) :=
  inferInstanceAs (Decidable (S ∉ t.roots ∧ ∀ e ∈ t.nodes, S ∉ e.2.children))

/-- C7 (amended): ingesting `CreateSpan(id = S, parent = Some X)` while X is
absent — provided S itself is not already in roots or any children set, X ≠ S,
and no later message creates a span with id S (creating X again is also
excluded, as in the claim) — leaves S outside `roots` and every children set,
so the full tree traversal from roots never visits S. -/
theorem unresolvable_parent_unreachable (t : SpanTree) (τ S X cs : Nat)
    (ms : List Message)
    (hX : lookupA t.nodes X = none) (hXS : X ≠ S)
    (hS : NotInTree t S)
    (hmsS : avoidsCreating ms S = true)
    (hmsX : avoidsCreating ms X = true) :
    NotInTree (ingestList (step t ⟨τ, .NewSpan ⟨S, some X, cs⟩⟩) ms) S
    ∧ ¬ TreeReach (ingestList (step t ⟨τ, .NewSpan ⟨S, some X, cs⟩⟩) ms) S := by
  have hl : lookupA (insertA S (freshNode τ ⟨S, some X, cs⟩) t.nodes) X = none := by
    simp [insertA, hX, hXS]
  have h1 : NotInTree (step t ⟨τ, .NewSpan ⟨S, some X, cs⟩⟩) S := by
    simp only [step, on_mesage, applyNewSpan, hl]
    refine ⟨hS.1, ?_⟩
    intro e he
    rcases List.mem_cons.mp he with rfl | he'
    · simp [freshNode]
    · exact hS.2 e he'
  have h2 := notInTree_ingestList S ms _ h1 hmsS
  exact ⟨h2, not_treeReach_of_notInTree _ _ h2⟩

/-- C7 witness: with span 5 present, create span 7 under the unknown parent
99 and then keep ingesting unrelated messages: span 7 stays outside `roots`
and all children sets and is never visited by the traversal. -/
theorem unresolvable_parent_unreachable_witness :
    NotInTree (ingestList
      (step (ingestList SpanTree.empty [⟨0, .NewSpan ⟨5, none, 0⟩⟩])
        ⟨1, .NewSpan ⟨7, some 99, 0⟩⟩)
      [⟨2, .EnterSpan 5⟩, ⟨3, .DataEvent ⟨0, none, []⟩⟩]) 7
    ∧ ¬ TreeReach (ingestList
      (step (ingestList SpanTree.empty [⟨0, .NewSpan ⟨5, none, 0⟩⟩])
        ⟨1, .NewSpan ⟨7, some 99, 0⟩⟩)
      [⟨2, .EnterSpan 5⟩, ⟨3, .DataEvent ⟨0, none, []⟩⟩]) 7 :=
  unresolvable_parent_unreachable
    (ingestList SpanTree.empty [⟨0, .NewSpan ⟨5, none, 0⟩⟩]) 1 7 99 0
    [⟨2, .EnterSpan 5⟩, ⟨3, .DataEvent ⟨0, none, []⟩⟩]
    (by decide) (by decide) (by decide) (by decide) (by decide)

/-! ### C4 — roots/children partition (corrected) -/

/-- C4 counterexample: roots 1 and 2 are created, then id 1 is re-created as
a child of 2: id 1 is now BOTH in `roots` and in node 2's children set, so
the partition claim fails under id reuse. -/
theorem roots_children_overlap_cex :
    1 ∈ reuseReparentTree.roots
    ∧ (lookupA reuseReparentTree.nodes 2).map (fun n => n.children) = some [1] := by
  decide

theorem partitionInv_update (t : SpanTree) (k : Nat) (f : SpanNode → SpanNode)
    (hspan : ∀ n, (f n).span = n.span) (hch : ∀ n, (f n).children = n.children)
    (h : PartitionInv t) :
    PartitionInv { t with nodes := updateA k f t.nodes } := by
  obtain ⟨ha, hb, hc⟩ := h
  refine ⟨?_, ?_, ?_⟩
  · intro id hid
    obtain ⟨n, hn, hpar⟩ := ha id hid
    by_cases hk : id = k
    · subst hk
      refine ⟨f n, ?_, ?_⟩
      · simp [lookupA_updateA, hn]
      · rw [hspan]; exact hpar
    · exact ⟨n, by simp [lookupA_updateA, hk, hn], hpar⟩
  · intro p n hp c hcmem
    rw [lookupA_updateA] at hp
    by_cases hk : p = k
    · rw [if_pos hk] at hp
      obtain ⟨n₀, hn₀, rfl⟩ := Option.map_eq_some'.mp hp
      rw [hch] at hcmem
      obtain ⟨m, hm, hpm⟩ := hb p n₀ (hk ▸ hn₀) c hcmem
      by_cases hck : c = k
      · subst hck
        refine ⟨f m, ?_, ?_⟩
        · simp [lookupA_updateA, hm]
        · rw [hspan]; exact hpm
      · exact ⟨m, by simp [lookupA_updateA, hck, hm], hpm⟩
    · rw [if_neg hk] at hp
      obtain ⟨m, hm, hpm⟩ := hb p n hp c hcmem
      by_cases hck : c = k
      · subst hck
        refine ⟨f m, ?_, ?_⟩
        · simp [lookupA_updateA, hm]
        · rw [hspan]; exact hpm
      · exact ⟨m, by simp [lookupA_updateA, hck, hm], hpm⟩
  · intro id n hid hpar
    rw [lookupA_updateA] at hid
    by_cases hk : id = k
    · rw [if_pos hk] at hid
      obtain ⟨n₀, hn₀, rfl⟩ := Option.map_eq_some'.mp hid
      rw [hspan] at hpar
      exact hc id n₀ (hk ▸ hn₀) hpar
    · rw [if_neg hk] at hid
      exact hc id n hid hpar

theorem partitionInv_newSpan (t : SpanTree) (τ : Nat) (s : Span)
    (hfr : lookupA t.nodes s.id = none) (h : PartitionInv t) :
    PartitionInv (applyNewSpan t τ s).1 := by
  obtain ⟨ha, hb, hc⟩ := h
  rcases hp : s.parent_span_id with _ | P
  · -- no declared parent: fresh node, added to roots
    simp only [applyNewSpan, hp]
    refine ⟨?_, ?_, ?_⟩
    · intro id hid
      rcases (mem_insertS id s.id t.roots).mp hid with rfl | hid'
      · exact ⟨freshNode τ s, by simp [insertA], by simp [freshNode, hp]⟩
      · obtain ⟨n, hn, hpar⟩ := ha id hid'
        have hne : id ≠ s.id := fun he => by rw [he, hfr] at hn; cases hn
        exact ⟨n, by simp [insertA, hne, hn], hpar⟩
    · intro p n hpn c hcmem
      rw [lookupA_insertA] at hpn
      by_cases hpk : p = s.id
      · rw [if_pos hpk] at hpn
        cases hpn
        simp [freshNode] at hcmem
      · rw [if_neg hpk] at hpn
        obtain ⟨m, hm, hpm⟩ := hb p n hpn c hcmem
        have hne : c ≠ s.id := fun he => by rw [he, hfr] at hm; cases hm
        exact ⟨m, by simp [insertA, hne, hm], hpm⟩
    · intro id n hid hpar
      rw [lookupA_insertA] at hid
      by_cases hik : id = s.id
      · exact (mem_insertS id s.id t.roots).mpr (Or.inl hik)
      · rw [if_neg hik] at hid
        exact (mem_insertS id s.id t.roots).mpr (Or.inr (hc id n hid hpar))
  · -- declared parent P
    rcases hl : lookupA (insertA s.id (freshNode τ s) t.nodes) P with _ | pn
    · -- parent unknown: fresh node linked nowhere
      rw [lookupA_insertA] at hl
      by_cases hPk : P = s.id
      · rw [if_pos hPk] at hl; cases hl
      · rw [if_neg hPk] at hl
        simp only [applyNewSpan, hp, lookupA_insertA, if_neg hPk, hl]
        refine ⟨?_, ?_, ?_⟩
        · intro id hid
          obtain ⟨n, hn, hpar⟩ := ha id hid
          have hne : id ≠ s.id := fun he => by rw [he, hfr] at hn; cases hn
          exact ⟨n, by simp [insertA, hne, hn], hpar⟩
        · intro p n hpn c hcmem
          rw [lookupA_insertA] at hpn
          by_cases hpk : p = s.id
          · rw [if_pos hpk] at hpn
            cases hpn
            simp [freshNode] at hcmem
          · rw [if_neg hpk] at hpn
            obtain ⟨m, hm, hpm⟩ := hb p n hpn c hcmem
            have hne : c ≠ s.id := fun he => by rw [he, hfr] at hm; cases hm
            exact ⟨m, by simp [insertA, hne, hm], hpm⟩
        · intro id n hid hpar
          rw [lookupA_insertA] at hid
          by_cases hik : id = s.id
          · rw [if_pos hik] at hid
            cases hid
            simp [freshNode, hp] at hpar
          · rw [if_neg hik] at hid
            exact hc id n hid hpar
    · -- parent known: fresh node added to P's children
      simp only [applyNewSpan, hp, hl]
      refine ⟨?_, ?_, ?_⟩
      · intro id hid
        obtain ⟨n, hn, hpar⟩ := ha id hid
        have hne : id ≠ s.id := fun he => by rw [he, hfr] at hn; cases hn
        by_cases hiP : id = P
        · subst hiP
          refine ⟨{ n with children := insertS s.id n.children }, ?_, hpar⟩
          simp [lookupA_updateA, lookupA_insertA, hne, hn]
        · exact ⟨n, by simp [lookupA_updateA, lookupA_insertA, hiP, hne, hn], hpar⟩
      · intro p n hpn c hcmem
        rw [lookupA_updateA] at hpn
        by_cases hpP : p = P
        · rw [if_pos hpP] at hpn
          rw [lookupA_insertA] at hpn
          by_cases hPs : P = s.id
          · -- the new span declares itself as its parent
            rw [hpP, if_pos hPs] at hpn
            cases hpn
            simp only [freshNode] at hcmem
            rcases (mem_insertS c s.id _).mp hcmem with rfl | hnil
            · refine ⟨{ freshNode τ s with children := insertS s.id [] }, ?_, ?_⟩
              · simp [lookupA_updateA, lookupA_insertA, hpP, hPs, freshNode]
              · simp [freshNode, hp, hpP, hPs]
            · simp at hnil
          · rw [hpP, if_neg hPs] at hpn
            obtain ⟨n₀, hn₀, rfl⟩ := Option.map_eq_some'.mp hpn
            simp only at hcmem
            rcases (mem_insertS c s.id n₀.children).mp hcmem with rfl | hcm
            · refine ⟨freshNode τ s, ?_, by simp [freshNode, hp, hpP]⟩
              have hsP : ¬ s.id = P := fun he => hPs (hpP ▸ he.symm)
              simp [lookupA_updateA, lookupA_insertA, hsP]
            · obtain ⟨m, hm, hpm⟩ := hb P n₀ hn₀ c hcm
              have hne : c ≠ s.id := fun he => by rw [he, hfr] at hm; cases hm
              by_cases hcP : c = P
              · subst hcP
                have hmeq : m = n₀ := by
                  rw [hm] at hn₀
                  exact Option.some.inj hn₀
                subst hmeq
                refine ⟨{ m with children := insertS s.id m.children }, ?_, hpP ▸ hpm⟩
                simp [lookupA_updateA, lookupA_insertA, hne, hm]
              · exact ⟨m, by simp [lookupA_updateA, lookupA_insertA, hcP, hne, hm],
                  hpP ▸ hpm⟩
        · rw [if_neg hpP] at hpn
          rw [lookupA_insertA] at hpn
          by_cases hps : p = s.id
          · rw [if_pos hps] at hpn
            cases hpn
            simp [freshNode] at hcmem
          · rw [if_neg hps] at hpn
            obtain ⟨m, hm, hpm⟩ := hb p n hpn c hcmem
            have hne : c ≠ s.id := fun he => by rw [he, hfr] at hm; cases hm
            by_cases hcP : c = P
            · subst hcP
              refine ⟨{ m with children := insertS s.id m.children }, ?_, hpm⟩
              simp [lookupA_updateA, lookupA_insertA, hne, hm]
            · exact ⟨m, by simp [lookupA_updateA, lookupA_insertA, hcP, hne, hm], hpm⟩
      · intro id n hid hpar
        rw [lookupA_updateA] at hid
        by_cases hiP : id = P
        · rw [if_pos hiP] at hid
          rw [lookupA_insertA] at hid
          by_cases hPs : P = s.id
          · rw [hiP, if_pos hPs] at hid
            cases hid
            simp [freshNode, hp] at hpar
          · rw [hiP, if_neg hPs] at hid
            obtain ⟨n₀, hn₀, rfl⟩ := Option.map_eq_some'.mp hid
            simp only at hpar
            rw [hiP]
            exact hc P n₀ hn₀ hpar
        · rw [if_neg hiP] at hid
          rw [lookupA_insertA] at hid
          by_cases his : id = s.id
          · rw [if_pos his] at hid
            cases hid
            simp [freshNode, hp] at hpar
          · rw [if_neg his] at hid
            exact hc id n hid hpar

theorem partitionInv_step (t : SpanTree) (m : Message)
    (hfr : ∀ s, m.msg_enum = .NewSpan s → lookupA t.nodes s.id = none)
    (h : PartitionInv t) : PartitionInv (step t m) := by
  obtain ⟨τ, e⟩ := m
  cases e with
  | NewCallsite callsite => exact h
  | NewSpan s => exact partitionInv_newSpan t τ s (hfr s rfl) h
  | EnterSpan span_id =>
    rcases hl : lookupA t.nodes span_id with _ | n
    · simp only [step, on_mesage, applyEnterSpan, hl]
      exact h
    · simp only [step, on_mesage, applyEnterSpan, hl]
      exact partitionInv_update t span_id _ (fun n' => rfl) (fun n' => rfl) h
  | ExitSpan span_id =>
    rcases hl : lookupA t.nodes span_id with _ | n
    · simp only [step, on_mesage, applyExitSpan, hl]
      exact h
    · simp only [step, on_mesage, applyExitSpan, hl]
      exact partitionInv_update t span_id _ (fun n' => rfl) (fun n' => rfl) h
  | DestroySpan span_id =>
    rcases hl : lookupA t.nodes span_id with _ | n
    · simp only [step, on_mesage, applyDestroySpan, hl]
      exact h
    · simp only [step, on_mesage, applyDestroySpan, hl]
      exact partitionInv_update t span_id _ (fun n' => rfl) (fun n' => rfl) h
  | SpanFollowsFrom sp fl =>
    rcases hl : lookupA t.nodes sp with _ | n
    · simp only [step, on_mesage, applyFollowsFrom, hl]
      exact h
    · simp only [step, on_mesage, applyFollowsFrom, hl]
      exact partitionInv_update t sp _ (fun n' => rfl) (fun n' => rfl) h
  | DataEvent event =>
    rcases hp : event.parent_span_id with _ | P
    · simp only [step, on_mesage, applyDataEvent, hp]
      exact h
    · rcases hl : lookupA t.nodes P with _ | n
      · simp only [step, on_mesage, applyDataEvent, hp, hl]
        exact h
      · simp only [step, on_mesage, applyDataEvent, hp, hl]
        exact partitionInv_update t P _ (fun n' => rfl) (fun n' => rfl) h

theorem reachFresh_partitionInv : ∀ t, ReachFresh t → PartitionInv t := by
  intro t h
  induction h with
  | empty =>
    refine ⟨?_, ?_, ?_⟩
    · intro id hid
      simp [SpanTree.empty] at hid
    · intro p n hp
      simp [SpanTree.empty] at hp
    · intro id n hid
      simp [SpanTree.empty] at hid
  | step t' m _ hfr ih => exact partitionInv_step t' m hfr ih

/-- A two-span state created without id reuse: root 1, child 2 under 1. -/
def freshPairTree : SpanTree :=
  ingestList SpanTree.empty
    [⟨0, .NewSpan ⟨1, none, 0⟩⟩, ⟨1, .NewSpan ⟨2, some 1, 0⟩⟩]



/-- A run of messages in which every `NewSpan`, at the moment it is applied,
carries a span id that is not yet present. -/
def freshRun (t : SpanTree) : List Message → Bool
  | [] => true
  | m :: rest =>
    (match m.msg_enum with
     | .NewSpan s => (lookupA t.nodes s.id).isNone
     | _ => true) && freshRun (step t m) rest

theorem freshRun_append : ∀ (l₁ l₂ : List Message) (t : SpanTree),
    freshRun t (l₁ ++ l₂) = (freshRun t l₁ && freshRun (ingestList t l₁) l₂) := by
  intro l₁
  induction l₁ with
  | nil => intro l₂ t; simp [freshRun, ingestList]
  | cons m rest ih =>
    intro l₂ t
    simp only [List.cons_append, freshRun, List.append_eq]
    rw [ih]
    simp only [ingestList, List.foldl_cons]
    rw [Bool.and_assoc]

theorem reachFresh_of_freshRun : ∀ (ms : List Message) (t : SpanTree),
    ReachFresh t → freshRun t ms = true → ReachFresh (ingestList t ms) := by
  intro ms
  induction ms with
  | nil => intro t h _; exact h
  | cons m rest ih =>
    intro t h hf
    simp only [freshRun, Bool.and_eq_true] at hf
    refine ih (step t m) (ReachFresh.step t m h ?_) hf.2
    intro s hs
    have hg := hf.1
    rw [hs] at hg
    simpa using hg

theorem rootMem_step (t : SpanTree) (m : Message) (r : Nat) (h : r ∈ t.roots) :
    r ∈ (step t m).roots := by
  obtain ⟨τ, e⟩ := m
  cases e with
  | NewCallsite callsite => exact h
  | NewSpan s =>
    rcases hp : s.parent_span_id with _ | P
    · simp only [step, on_mesage, applyNewSpan, hp]
      exact (mem_insertS r s.id t.roots).mpr (Or.inr h)
    · rcases hl : lookupA (insertA s.id (freshNode τ s) t.nodes) P with _ | pn <;>
        simp only [step, on_mesage, applyNewSpan, hp, hl] <;> exact h
  | EnterSpan span_id =>
    rcases hl : lookupA t.nodes span_id with _ | n <;>
      simp only [step, on_mesage, applyEnterSpan, hl] <;> exact h
  | ExitSpan span_id =>
    rcases hl : lookupA t.nodes span_id with _ | n <;>
      simp only [step, on_mesage, applyExitSpan, hl] <;> exact h
  | DestroySpan span_id =>
    rcases hl : lookupA t.nodes span_id with _ | n <;>
      simp only [step, on_mesage, applyDestroySpan, hl] <;> exact h
  | SpanFollowsFrom sp fl =>
    rcases hl : lookupA t.nodes sp with _ | n <;>
      simp only [step, on_mesage, applyFollowsFrom, hl] <;> exact h
  | DataEvent event =>
    rcases hp : event.parent_span_id with _ | P
    · simp only [step, on_mesage, applyDataEvent, hp]
      exact h
    · rcases hl : lookupA t.nodes P with _ | n <;>
        simp only [step, on_mesage, applyDataEvent, hp, hl] <;> exact h

theorem rootMem_ingestList : ∀ (ms : List Message) (t : SpanTree) (r : Nat),
    r ∈ t.roots → r ∈ (ingestList t ms).roots := by
  intro ms
  induction ms with
  | nil => intro t r h; exact h
  | cons m rest ih => intro t r h; exact ih (step t m) r (rootMem_step t m r h)

theorem childMem_step (t : SpanTree) (m : Message) (p c : Nat)
    (hm : ∀ s, m.msg_enum = .NewSpan s → lookupA t.nodes s.id = none)
    (h : ∃ n, lookupA t.nodes p = some n ∧ c ∈ n.children) :
    ∃ n, lookupA (step t m).nodes p = some n ∧ c ∈ n.children := by
  obtain ⟨n, hn, hc⟩ := h
  obtain ⟨τ, e⟩ := m
  cases e with
  | NewCallsite callsite => exact ⟨n, hn, hc⟩
  | NewSpan s =>
    have hS : lookupA t.nodes s.id = none := hm s rfl
    have hps : p ≠ s.id := fun he => by rw [he, hS] at hn; cases hn
    have hn1 : lookupA (insertA s.id (freshNode τ s) t.nodes) p = some n := by
      simp [insertA, hps, hn]
    rcases hp : s.parent_span_id with _ | P
    · simp only [step, on_mesage, applyNewSpan, hp]
      exact ⟨n, hn1, hc⟩
    · rcases hl : lookupA (insertA s.id (freshNode τ s) t.nodes) P with _ | pn
      · simp only [step, on_mesage, applyNewSpan, hp, hl]
        exact ⟨n, hn1, hc⟩
      · simp only [step, on_mesage, applyNewSpan, hp, hl]
        by_cases hpP : p = P
        · subst hpP
          refine ⟨{ n with children := insertS s.id n.children }, ?_, ?_⟩
          · simp [lookupA_updateA, hn1]
          · exact (mem_insertS c s.id n.children).mpr (Or.inr hc)
        · exact ⟨n, by simp [lookupA_updateA, hpP, hn1], hc⟩
  | EnterSpan span_id =>
    rcases hl : lookupA t.nodes span_id with _ | n'
    · simp only [step, on_mesage, applyEnterSpan, hl]
      exact ⟨n, hn, hc⟩
    · simp only [step, on_mesage, applyEnterSpan, hl]
      by_cases hpk : p = span_id
      · subst hpk
        refine ⟨{ n with
          intervals := n.intervals ++ [{ entered := some τ, exited := none }] }, ?_, hc⟩
        simp [lookupA_updateA, hn]
      · exact ⟨n, by simp [lookupA_updateA, hpk, hn], hc⟩
  | ExitSpan span_id =>
    rcases hl : lookupA t.nodes span_id with _ | n'
    · simp only [step, on_mesage, applyExitSpan, hl]
      exact ⟨n, hn, hc⟩
    · simp only [step, on_mesage, applyExitSpan, hl]
      by_cases hpk : p = span_id
      · subst hpk
        refine ⟨{ n with intervals := (exitIntervals τ n.intervals).1 }, ?_, hc⟩
        simp [lookupA_updateA, hn]
      · exact ⟨n, by simp [lookupA_updateA, hpk, hn], hc⟩
  | DestroySpan span_id =>
    rcases hl : lookupA t.nodes span_id with _ | n'
    · simp only [step, on_mesage, applyDestroySpan, hl]
      exact ⟨n, hn, hc⟩
    · simp only [step, on_mesage, applyDestroySpan, hl]
      by_cases hpk : p = span_id
      · subst hpk
        refine ⟨{ n with lifetime := { n.lifetime with exited := some τ } }, ?_, hc⟩
        simp [lookupA_updateA, hn]
      · exact ⟨n, by simp [lookupA_updateA, hpk, hn], hc⟩
  | SpanFollowsFrom sp fl =>
    rcases hl : lookupA t.nodes sp with _ | n'
    · simp only [step, on_mesage, applyFollowsFrom, hl]
      exact ⟨n, hn, hc⟩
    · simp only [step, on_mesage, applyFollowsFrom, hl]
      by_cases hpk : p = sp
      · subst hpk
        refine ⟨{ n with follows := some fl }, ?_, hc⟩
        simp [lookupA_updateA, hn]
      · exact ⟨n, by simp [lookupA_updateA, hpk, hn], hc⟩
  | DataEvent event =>
    rcases hp : event.parent_span_id with _ | P
    · simp only [step, on_mesage, applyDataEvent, hp]
      exact ⟨n, hn, hc⟩
    · rcases hl : lookupA t.nodes P with _ | n'
      · simp only [step, on_mesage, applyDataEvent, hp, hl]
        exact ⟨n, hn, hc⟩
      · simp only [step, on_mesage, applyDataEvent, hp, hl]
        by_cases hpk : p = P
        · subst hpk
          refine ⟨{ n with events := n.events ++ [(τ, event)] }, ?_, hc⟩
          simp [lookupA_updateA, hn]
        · exact ⟨n, by simp [lookupA_updateA, hpk, hn], hc⟩

theorem childMem_ingestList : ∀ (ms : List Message) (t : SpanTree) (p c : Nat),
    freshRun t ms = true →
    (∃ n, lookupA t.nodes p = some n ∧ c ∈ n.children) →
    ∃ n, lookupA (ingestList t ms).nodes p = some n ∧ c ∈ n.children := by
  intro ms
  induction ms with
  | nil => intro t p c _ h; exact h
  | cons m rest ih =>
    intro t p c hf h
    simp only [freshRun, Bool.and_eq_true] at hf
    refine ih (step t m) p c hf.2 (childMem_step t m p c ?_ h)
    intro s hs
    have hg := hf.1
    rw [hs] at hg
    simpa using hg

/-- C4 (amended): along any ingestion run from the empty tree in which every
`CreateSpan` carries a not-yet-present span id, `roots` and the children sets
partition the spans whose parent situation was resolvable at creation — both
directions. Separation: every root's stored parent is absent, every
children-set member's stored parent is exactly that parent, so no id is both
a root and a child and no id is in two different parents' children sets.
Cover: every stored parentless span is in `roots`; a span created with no
declared parent is in `roots`, and a span created with a declared parent that
was present at creation (the code's post-insert lookup) is in that parent's
children set in the final state. -/
theorem freshRun_partition (ms : List Message)
    (h : freshRun SpanTree.empty ms = true) :
    PartitionInv (ingestList SpanTree.empty ms)
    ∧ (∀ id ∈ (ingestList SpanTree.empty ms).roots, ∀ p n,
        lookupA (ingestList SpanTree.empty ms).nodes p = some n → id ∉ n.children)
    ∧ (∀ c p q np nq,
        lookupA (ingestList SpanTree.empty ms).nodes p = some np →
        lookupA (ingestList SpanTree.empty ms).nodes q = some nq →
        c ∈ np.children → c ∈ nq.children → p = q)
    ∧ (∀ ms₁ τ s ms₂, ms = ms₁ ++ ⟨τ, .NewSpan s⟩ :: ms₂ →
        (s.parent_span_id = none →
          s.id ∈ (ingestList SpanTree.empty ms).roots)
        ∧ (∀ p, s.parent_span_id = some p →
            (lookupA (insertA s.id (freshNode τ s)
                (ingestList SpanTree.empty ms₁).nodes) p).isSome = true →
            ∃ n, lookupA (ingestList SpanTree.empty ms).nodes p = some n
              ∧ s.id ∈ n.children)) := by
  obtain ⟨ha, hb, hc⟩ := reachFresh_partitionInv _
    (reachFresh_of_freshRun ms SpanTree.empty ReachFresh.empty h)
  refine ⟨⟨ha, hb, hc⟩, ?_, ?_, ?_⟩
  · intro id hid p n hp hmem
    obtain ⟨n₁, hn₁, hpar₁⟩ := ha id hid
    obtain ⟨m, hm, hpm⟩ := hb p n hp id hmem
    rw [hn₁] at hm
    have hmeq : n₁ = m := Option.some.inj hm
    rw [← hmeq, hpar₁] at hpm
    cases hpm
  · intro c p q np nq hp hq hcp hcq
    obtain ⟨m₁, hm₁, hpm₁⟩ := hb p np hp c hcp
    obtain ⟨m₂, hm₂, hpm₂⟩ := hb q nq hq c hcq
    rw [hm₁] at hm₂
    have hmeq : m₁ = m₂ := Option.some.inj hm₂
    rw [← hmeq, hpm₁] at hpm₂
    exact Option.some.inj hpm₂
  · intro ms₁ τ s ms₂ hsplit
    subst hsplit
    rw [freshRun_append] at h
    simp only [Bool.and_eq_true] at h
    obtain ⟨h₁, h₂⟩ := h
    simp only [freshRun, Bool.and_eq_true] at h₂
    obtain ⟨hguard, h₃⟩ := h₂
    have hfold : ingestList SpanTree.empty (ms₁ ++ ⟨τ, .NewSpan s⟩ :: ms₂) =
        ingestList (step (ingestList SpanTree.empty ms₁) ⟨τ, .NewSpan s⟩) ms₂ := by
      simp [ingestList, List.foldl_append]
    constructor
    · intro hpnone
      rw [hfold]
      refine rootMem_ingestList ms₂ _ s.id ?_
      simp only [step, on_mesage, applyNewSpan, hpnone]
      exact (mem_insertS s.id s.id _).mpr (Or.inl rfl)
    · intro p hp hres
      rw [hfold]
      refine childMem_ingestList ms₂ _ p s.id h₃ ?_
      rcases hl : lookupA (insertA s.id (freshNode τ s)
          (ingestList SpanTree.empty ms₁).nodes) p with _ | n₀
      · rw [hl] at hres
        simp at hres
      · simp only [step, on_mesage, applyNewSpan, hp, hl]
        refine ⟨{ n₀ with children := insertS s.id n₀.children }, ?_, ?_⟩
        · simp [lookupA_updateA, hl]
        · exact (mem_insertS s.id s.id n₀.children).mpr (Or.inl rfl)

/-- C4 witness: on the fresh run creating root 1 and then span 2 under the
present parent 1, span 2 ends up in node 1's children set. -/
theorem freshRun_partition_witness :
    ∃ n, lookupA freshPairTree.nodes 1 = some n ∧ 2 ∈ n.children :=
  ((freshRun_partition
      [⟨0, .NewSpan ⟨1, none, 0⟩⟩, ⟨1, .NewSpan ⟨2, some 1, 0⟩⟩]
      (by decide)).2.2.2
    [⟨0, .NewSpan ⟨1, none, 0⟩⟩] 1 ⟨2, some 1, 0⟩ [] rfl).2 1 rfl (by decide)
